import Mathlib

/-!
Shallow embedding of the ETL feature pipeline of
`Climate Risk Analysis Dashboard/etl/ingest_and_process.py`.

Numbers are modelled exactly: finite float values become rationals, and the
places where pandas can produce a non-finite value (division by zero in
`pct_change`) are modelled by an explicit float type `PF` with signed
infinities and NaN.  The z-score path needs a real square root, so those
columns live in `ℝ`.
-/

namespace ClimateETL

/-- Float value as produced by the pandas pipeline: a finite rational, a
signed infinity, or NaN.  Finite arithmetic is exact. -/
inductive PF where
  | num (q : ℚ)
  | pinf
  | ninf
  | nan
deriving DecidableEq, Repr

/-- Division of two finite float values, with the IEEE conventions for a zero
divisor: `x/0` is a signed infinity for `x ≠ 0`, and `0/0` is NaN. -/
def PF.divq (a b : ℚ) : PF :=
  if b = 0 then (if a = 0 then .nan else if 0 < a then .pinf else .ninf)
  else .num (a / b)

/-- Subtraction of 1, as in pandas `pct_change` (which computes
`x / x.shift(1) - 1`); infinities and NaN absorb the subtraction. -/
def PF.subOne : PF → PF
  | .num q => .num (q - 1)
  | x => x

/-- The effect of `Series.fillna(0.0)` on one value: NaN becomes 0.0,
everything else is kept. -/
def PF.fill0 : PF → PF
  | .nan => .num 0
  | x => x

/-- Strict comparison of float values (NaN compares false, as in IEEE). -/
def PF.ltb : PF → PF → Bool
  | .nan, _ => false
  | _, .nan => false
  | .ninf, .ninf => false
  | .ninf, _ => true
  | _, .ninf => false
  | .num a, .num b => decide (a < b)
  | .num _, .pinf => true
  | .pinf, _ => false

/-- Equality of float values with `NaN ≠ NaN` (IEEE). -/
def PF.eqb : PF → PF → Bool
  | .nan, _ => false
  | _, .nan => false
  | a, b => decide (a = b)

/-- Non-strict comparison of float values. -/
def PF.leb (a b : PF) : Bool := PF.ltb a b || PF.eqb a b

/-- NaN test. -/
def PF.isNan : PF → Bool
  | .nan => true
  | _ => false

/-- One position of `Series.pct_change()` applied to a group with values
`xs`: NaN at the first position, else `x_i / x_(i-1) - 1`. -/
def pctChangeAt (xs : List ℚ) (i : ℕ) : PF :=
  if i = 0 then .nan
  else (PF.divq (xs.getD i 0) (xs.getD (i - 1) 0)).subOne

/-- One position of `pct_change().fillna(0.0)` (the `co2_growth` column,
restricted to one country group). -/
def co2GrowthAt (xs : List ℚ) (i : ℕ) : PF := (pctChangeAt xs i).fill0

/-- Value of `Series.rank(pct=True)` (default `method='average'`) for the
entries of `l` equal to `v`: the average of the 1-based positions of the tied
block, divided by the number of values. -/
def rankPct (l : List PF) (v : PF) : ℚ :=
  ((l.countP (fun w => PF.ltb w v) : ℚ)
      + ((l.countP (fun w => PF.eqb w v) : ℚ) + 1) / 2) / l.length

/-- The value of `Series.mean()` in exact rational arithmetic. -/
def seriesMean (xs : List ℚ) : ℚ := xs.sum / xs.length

/-- Population variance of a series, the square of `Series.std(ddof=0)`. -/
def popVar (xs : List ℚ) : ℚ :=
  ((xs.map (fun x => (x - seriesMean xs) ^ 2)).sum) / xs.length

/-- The value of `Series.std(ddof=0)`. -/
noncomputable def popStd (xs : List ℚ) : ℝ := Real.sqrt (popVar xs)

/-- The inner `zscore` helper of `compute_features`, at position `i` of one
group: `(s - s.mean()) / (std if std != 0 else 1.0)`. -/
noncomputable def zscoreAt (xs : List ℚ) (i : ℕ) : ℝ :=
  (((xs.getD i 0 : ℚ) : ℝ) - (seriesMean xs : ℝ))
    / (if popStd xs = 0 then 1 else popStd xs)

/-- A row of the standardized frame `df_std` handed to `compute_features`:
fields `country`, `year`, `temperature_anomaly`, `co2_emission`,
`sea_level_change`, all numerics finite after the `fillna(0.0)` pass. -/
structure StdRecord where
  country : String
  year : ℚ
  temperature_anomaly : ℚ
  co2_emission : ℚ
  sea_level_change : ℚ
deriving DecidableEq, Repr

/-- Placeholder record used as the default of list lookups. -/
def dummyStd : StdRecord := ⟨"", 0, 0, 0, 0⟩

/-- Country value of row `i`. -/
def countryAt (rs : List StdRecord) (i : ℕ) : String := (rs.getD i dummyStd).country

/-- The `df.groupby("country")` group belonging to country `c`, in frame
order (groupby preserves the order of rows inside a group). -/
def groupOf (rs : List StdRecord) (c : String) : List StdRecord :=
  rs.filter (fun r => r.country == c)

/-- Position of row `i` inside its own country group: the number of earlier
rows of the same country. -/
def posIn (rs : List StdRecord) (i : ℕ) : ℕ :=
  ((rs.take i).filter (fun r => r.country == countryAt rs i)).length

/-- The `temp_anomaly_z` column at row `i`: z-score of `temperature_anomaly`
within the row's country group. -/
noncomputable def tempAnomalyZ (rs : List StdRecord) (i : ℕ) : ℝ :=
  zscoreAt ((groupOf rs (countryAt rs i)).map (·.temperature_anomaly)) (posIn rs i)

/-- The `sea_level_z` column at row `i`: z-score of `sea_level_change` within
the row's country group. -/
noncomputable def seaLevelZ (rs : List StdRecord) (i : ℕ) : ℝ :=
  zscoreAt ((groupOf rs (countryAt rs i)).map (·.sea_level_change)) (posIn rs i)

/-- The `co2_growth` column at row `i`:
`df.groupby("country")["co2_emission"].pct_change().fillna(0.0)`. -/
def co2Growth (rs : List StdRecord) (i : ℕ) : PF :=
  co2GrowthAt ((groupOf rs (countryAt rs i)).map (·.co2_emission)) (posIn rs i)

/-- All values of the `co2_growth` column, in frame order. -/
def allCo2Growth (rs : List StdRecord) : List PF :=
  (List.range rs.length).map (co2Growth rs)

/-- The `co2_growth_norm` column at row `i`:
`df["co2_growth"].rank(pct=True)`, a rank over the whole frame. -/
def co2GrowthNorm (rs : List StdRecord) (i : ℕ) : ℚ :=
  rankPct (allCo2Growth rs) (co2Growth rs i)

/-- The `risk_score` column at row `i`:
`0.5 * temp_anomaly_z + 0.3 * co2_growth_norm + 0.2 * sea_level_z`. -/
noncomputable def riskScore (rs : List StdRecord) (i : ℕ) : ℝ :=
  0.5 * tempAnomalyZ rs i + 0.3 * (co2GrowthNorm rs i : ℝ) + 0.2 * seaLevelZ rs i

/-- Test for the character class `[a-z0-9]` (the raw name is lowercased
first, so these are the characters `re.sub(r'[^a-z0-9]+', '_', x)` keeps). -/
def isLowerAlnum (c : Char) : Bool :=
  (decide ('a' ≤ c) && decide (c ≤ 'z')) || (decide ('0' ≤ c) && decide (c ≤ '9'))

/-- The substitution `re.sub(r'[^a-z0-9]+', '_', x)`: every maximal run of
characters outside `[a-z0-9]` becomes one underscore.  The flag records
whether the previous character was part of such a run. -/
def collapseRuns : List Char → Bool → List Char
  | [], _ => []
  | c :: rest, inRun =>
    if isLowerAlnum c then c :: collapseRuns rest false
    else if inRun then collapseRuns rest true
    else '_' :: collapseRuns rest true

/-- The call `x.strip('_')`: drop underscores from both ends. -/
def stripUnderscores (l : List Char) : List Char :=
  ((l.dropWhile (· == '_')).reverse.dropWhile (· == '_')).reverse

/-- Normalization of one column name: lowercase, collapse non-alphanumeric
runs to `_`, strip outer underscores. -/
def normalizeName (s : String) : String :=
  ⟨stripUnderscores (collapseRuns (s.data.map Char.toLower) false)⟩

/-- The helper `normalize_cols` of the pipeline. -/
def normalize_cols (cols : List String) : List String := cols.map normalizeName

/-- The helper `pick_col`: the first option present among the columns. -/
def pick_col (cols : List String) (options : List String) : Option String :=
  options.find? (fun o => cols.contains o)

/-- Alias priority list for the risk-index-like field (`cri_col`). -/
def criOptions : List String := ["cri_score", "climate_risk_index", "cri"]

/-- Alias priority list for the losses-like field (`losses_col`). -/
def lossesOptions : List String := ["losses_usdm_ppp_total", "losses_per_gdp_total"]

/-- Alias priority list for the fatalities-like field (`gdp_pc_col`). -/
def fatalOptions : List String := ["fatalities_total", "fatalities_per_100k_total"]

/-- Resolution of the mandatory country column:
`"country" if "country" in cols else pick_col(cols, ["rw_country_name", "country_name"])`. -/
def countryColOf (cols : List String) : Option String :=
  if cols.contains "country" then some "country"
  else pick_col cols ["rw_country_name", "country_name"]

/-- Sorting used when the pipeline reports the available columns. -/
def sortStrings (l : List String) : List String :=
  l.mergeSort (fun a b => decide (a ≤ b))

/-- The mandatory-column check of `main`: either the resolved country column,
or the `SchemaError` carrying the sorted list of available columns. -/
def resolveCountry (cols : List String) : Except (List String) String :=
  match countryColOf cols with
  | some c => Except.ok c
  | none => Except.error (sortStrings cols)

/-- One cell of a raw pandas frame: a finite number, a piece of
non-numeric text, or a missing value (NaN).  `pd.to_numeric(..,
errors="coerce")` maps text cells to NaN. -/
inductive Cell where
  | num (q : ℚ)
  | txt (s : String)
  | na
deriving DecidableEq, Repr

/-- Coercion of one cell by `pd.to_numeric(.., errors="coerce")`. -/
def Cell.toNum : Cell → Option ℚ
  | .num q => some q
  | .txt _ => none
  | .na => none

/-- The value of a cell when used as the `country` key (`dropna` only drops
real missing values). -/
def Cell.toKey : Cell → Option String
  | .num q => some (toString q)
  | .txt s => some s
  | .na => none

/-- Multiplication of a cell by a scalar (the `temp[col] * scale_factor`
step of the simulation loop; only numeric cells carry a product). -/
def Cell.scale (c : Cell) (k : ℚ) : Cell :=
  match c with
  | .num q => .num (q * k)
  | .txt _ => .na
  | .na => .na

/-- A pandas frame: the header names, in order, and the rows as positional
cell lists. -/
structure Frame where
  header : List String
  rows : List (List Cell)
deriving DecidableEq, Repr

/-- A frame whose rows all have exactly one cell per header entry. -/
def Frame.Tidy (f : Frame) : Prop :=
  ∀ row ∈ f.rows, row.length = f.header.length

/-- Index of the first column with the given name. -/
def colIdx (header : List String) (name : String) : Option ℕ :=
  match header with
  | [] => none
  | h :: t => if h = name then some 0 else (colIdx t name).map (· + 1)

/-- Cell of row `i` in the column named `name` (missing column reads as NaN). -/
def cellAt (f : Frame) (i : ℕ) (name : String) : Cell :=
  match colIdx f.header name with
  | some j => (f.rows.getD i []).getD j .na
  | none => .na

/-- Assignment `df[name] = vals`: replace the column in place when the name
exists, append a new column otherwise. -/
def setCol (f : Frame) (name : String) (vals : List Cell) : Frame :=
  match colIdx f.header name with
  | some j => ⟨f.header, (f.rows.zip vals).map (fun p => p.1.set j p.2)⟩
  | none => ⟨f.header ++ [name], (f.rows.zip vals).map (fun p => p.1 ++ [p.2])⟩

/-- Values of the column named `name`, as `df[name]` (empty when absent). -/
def colValues (f : Frame) (name : String) : List Cell :=
  match colIdx f.header name with
  | some j => f.rows.map (fun row => row.getD j .na)
  | none => []

/-- Whether column `j` has a numeric dtype: every cell is a number or NaN
(one text cell makes the column `object` and excludes it from
`select_dtypes("number")`). -/
def numericColB (f : Frame) (j : ℕ) : Bool :=
  f.rows.all (fun row =>
    match row.getD j .na with
    | .num _ => true
    | .na => true
    | .txt _ => false)

/-- Row value of `df.select_dtypes("number").sum(axis=1)`: the sum of the
row's cells over the numeric-dtype columns, NaN contributing 0 (`skipna`). -/
def numericRowSum (f : Frame) (row : List Cell) : ℚ :=
  (((List.range f.header.length).filter (numericColB f)).map (fun j =>
    match row.getD j .na with
    | .num q => q
    | _ => 0)).sum

/-- One conditional perturbation of the simulation loop: when a source
column is mapped, write its values scaled by `1 + s i` (row-wise) into the
fixed target column; otherwise leave the frame unchanged. -/
def perturbStep (f : Frame) (src : Option String) (tgt : String) (s : ℕ → ℚ) : Frame :=
  match src with
  | some c => setCol f tgt ((colValues f c).mapIdx (fun i cell => cell.scale (1 + s i)))
  | none => f

/-- One iteration of the simulation loop for year `y`: set `year`, then
(for each mapped source column) write the perturbed copy into the fixed
target column.  `s1 s2 s3` give the random draw for each row. -/
def expandYear (f : Frame) (crio lco gco : Option String) (y : ℕ)
    (s1 s2 s3 : ℕ → ℚ) : Frame :=
  perturbStep (perturbStep (perturbStep
    (setCol f "year" (List.replicate f.rows.length (Cell.num y)))
    crio "cri_score" s1) lco "losses_usdm_ppp_total" s2) gco "fatalities_total" s3

/-- The simulation loop plus `pd.concat(simulated, ignore_index=True)`:
one copy of the frame per year 2000–2024.  The random functions take the
year and the row index. -/
def simulate (f : Frame) (crio lco gco : Option String)
    (r1 r2 r3 : ℕ → ℕ → ℚ) : Frame :=
  ⟨(expandYear f crio lco gco 2000 (r1 2000) (r2 2000) (r3 2000)).header,
   ((List.range 25).map (fun k =>
      (expandYear f crio lco gco (2000 + k)
        (r1 (2000 + k)) (r2 (2000 + k)) (r3 (2000 + k))).rows)).flatten⟩

/-- The standardization block of `main`: build `country`, `year` and the
three numeric fields, drop rows with a missing `country` or `year`, and
fill the numerics with 0.0. -/
def standardize (f : Frame) (ccol : String) (crio lco gco : Option String) :
    List StdRecord :=
  (List.range f.rows.length).filterMap (fun i =>
    match (cellAt f i ccol).toKey, (cellAt f i "year").toNum with
    | some c, some y =>
        some ⟨c, y,
          (match crio with
            | some cc => (cellAt f i cc).toNum
            | none => some (numericRowSum f (f.rows.getD i []))).getD 0,
          (match lco with
            | some cc => (cellAt f i cc).toNum
            | none => some 0).getD 0,
          (match gco with
            | some cc => (cellAt f i cc).toNum
            | none => some 0).getD 0⟩
    | _, _ => none)

/-- The whole of `main` after the CSV read, up to the standardized frame:
normalize the header, resolve the column mapping (with the `SchemaError`
path), set the base year, simulate 2000–2024, standardize. -/
def runPipeline (f0 : Frame) (r1 r2 r3 : ℕ → ℕ → ℚ) :
    Except (List String) (List StdRecord) :=
  let hdr := normalize_cols f0.header
  let f : Frame := ⟨hdr, f0.rows⟩
  match countryColOf hdr with
  | none => Except.error (sortStrings hdr)
  | some ccol =>
    let crio := pick_col hdr criOptions
    let lco := pick_col hdr lossesOptions
    let gco := pick_col hdr fatalOptions
    let fb := setCol f "year" (List.replicate f.rows.length (Cell.num 2024))
    let fs := simulate fb crio lco gco r1 r2 r3
    Except.ok (standardize fs ccol crio lco gco)

/-- Spec-side definition, following the glossary sentence "Percentile rank:
fraction of all values in the dataset that are ≤ a given value". -/
def fracLe (l : List PF) (v : PF) : ℚ :=
  (l.countP (fun w => PF.leb w v) : ℚ) / l.length

/-- Raw frame whose only alias is the country one: no risk-index, losses or
fatalities alias, and no numeric data column. -/
def noCriFrame : Frame :=
  ⟨["Country Name", "Notes"], [[Cell.txt "Atlantis", Cell.txt "x"]]⟩

/-- Zero random draw; the standardization counterexample does not depend on
the draws. -/
def zeroR : ℕ → ℕ → ℚ := fun _ _ => 0

/-- The post-year-set, post-simulation frame of the pipeline run on
`noCriFrame`. -/
def noCriSim : Frame :=
  simulate (setCol ⟨normalize_cols noCriFrame.header, noCriFrame.rows⟩ "year"
      (List.replicate noCriFrame.rows.length (Cell.num 2024)))
    none none none zeroR zeroR zeroR

/-- The standardized output of the pipeline run on `noCriFrame`. -/
def noCriOut : List StdRecord :=
  ((runPipeline noCriFrame zeroR zeroR zeroR).toOption).getD []

/-- One-row frame with all three optional aliases absent except the
risk-index one, for the defaults witness. -/
def c2wFrame : Frame :=
  ⟨["country", "year", "cri_score"], [[Cell.txt "A", Cell.num 2024, Cell.num 7]]⟩

/-- Two-country input used to exhibit the tie behaviour of
`rank(pct=True)`: both rows are first rows of their group, so both
`co2_growth` values are 0.0, a tie. -/
def c3rs : List StdRecord := [⟨"A", 2000, 1, 5, 2⟩, ⟨"B", 2000, 1, 7, 2⟩]

/-- Two-row one-country input whose `co2_growth` values `[0.0, 1.0]` are
untied. -/
def untiedRs : List StdRecord := [⟨"A", 2000, 0, 2, 0⟩, ⟨"A", 2001, 0, 4, 0⟩]

/-- One-row input frame with a mapped risk-index column, for the expansion
witness. -/
def c9f : Frame := ⟨["country", "cri_score"], [[Cell.txt "A", Cell.num 10]]⟩

/-- Constant random draw `1/10`, inside all three uniform ranges. -/
def c9r : ℕ → ℕ → ℚ := fun _ _ => 1 / 10

/-- Input with a zero `co2_emission` followed by a positive one: the
percent change divides by zero. -/
def c10rs : List StdRecord := [⟨"A", 2000, 3, 0, 7⟩, ⟨"A", 2001, 3, 1, 7⟩]

section Lemmas

lemma getD_append_cons {α : Type} (l1 l2 : List α) (a d : α) :
    (l1 ++ a :: l2).getD l1.length d = a := by
  induction l1 with
  | nil => rfl
  | cons h t ih => simpa using ih

lemma filter_split (rs : List StdRecord) (i : ℕ) (hi : i < rs.length) :
    groupOf rs (countryAt rs i) =
      (rs.take i).filter (fun r => r.country == countryAt rs i)
        ++ rs.getD i dummyStd
          :: (rs.drop (i + 1)).filter (fun r => r.country == countryAt rs i) := by
  obtain ⟨c, hc⟩ : ∃ c, countryAt rs i = c := ⟨_, rfl⟩
  have hdrop : rs.drop i = rs.getD i dummyStd :: rs.drop (i + 1) := by
    rw [List.getD_eq_getElem _ _ hi]
    exact List.drop_eq_getElem_cons hi
  have hpred : ((rs.getD i dummyStd).country == c) = true := by
    rw [← hc, countryAt]; simp
  rw [hc, groupOf]
  conv_lhs => rw [← List.take_append_drop i rs]
  rw [List.filter_append, hdrop]
  simp only [List.filter_cons, hpred, if_true]

lemma groupOf_getD_posIn (rs : List StdRecord) (i : ℕ) (hi : i < rs.length) :
    (groupOf rs (countryAt rs i)).getD (posIn rs i) dummyStd = rs.getD i dummyStd := by
  rw [filter_split rs i hi, posIn]
  exact getD_append_cons _ _ _ _

lemma posIn_lt_group_length (rs : List StdRecord) (i : ℕ) (hi : i < rs.length) :
    posIn rs i < (groupOf rs (countryAt rs i)).length := by
  rw [filter_split rs i hi, posIn, List.length_append, List.length_cons]
  omega

lemma group_map_getD (rs : List StdRecord) (i : ℕ) (hi : i < rs.length)
    (f : StdRecord → ℚ) :
    ((groupOf rs (countryAt rs i)).map f).getD (posIn rs i) 0
      = f (rs.getD i dummyStd) := by
  have hlt : posIn rs i < ((groupOf rs (countryAt rs i)).map f).length := by
    rw [List.length_map]; exact posIn_lt_group_length rs i hi
  have hlt' : posIn rs i < (groupOf rs (countryAt rs i)).length :=
    posIn_lt_group_length rs i hi
  rw [List.getD_eq_getElem _ _ hlt, List.getElem_map, ← List.getD_eq_getElem _ dummyStd hlt',
    groupOf_getD_posIn rs i hi]

lemma getD_mem_of_lt {α : Type} (l : List α) (n : ℕ) (d : α) (h : n < l.length) :
    l.getD n d ∈ l := by
  rw [List.getD_eq_getElem _ _ h]; exact List.getElem_mem h

lemma seriesMean_const (xs : List ℚ) (t : ℚ) (hne : xs ≠ [])
    (hall : ∀ x ∈ xs, x = t) : seriesMean xs = t := by
  have hsum : xs.sum = xs.length • t := List.sum_eq_card_nsmul xs t hall
  have hlen : (xs.length : ℚ) ≠ 0 := by
    simpa using List.length_pos.2 hne |>.ne'
  rw [seriesMean, hsum, nsmul_eq_mul]
  exact mul_div_cancel_left₀ t hlen

lemma popVar_const (xs : List ℚ) (t : ℚ) (hne : xs ≠ [])
    (hall : ∀ x ∈ xs, x = t) : popVar xs = 0 := by
  rw [popVar, List.sum_eq_zero, zero_div]
  intro y hy
  rcases List.mem_map.1 hy with ⟨x, hx, rfl⟩
  rw [hall x hx, seriesMean_const xs t hne hall, sub_self]
  ring

lemma popVar_nonneg (xs : List ℚ) : 0 ≤ popVar xs := by
  apply div_nonneg _ (by positivity)
  apply List.sum_nonneg
  intro y hy
  rcases List.mem_map.1 hy with ⟨x, _, rfl⟩
  positivity

lemma popStd_eq_zero_iff (xs : List ℚ) : popStd xs = 0 ↔ popVar xs = 0 := by
  rw [popStd, Real.sqrt_eq_zero (by exact_mod_cast popVar_nonneg xs)]
  exact_mod_cast Iff.rfl

lemma zscoreAt_of_const (xs : List ℚ) (t : ℚ) (i : ℕ) (hne : xs ≠ [])
    (hall : ∀ x ∈ xs, x = t) (hi : i < xs.length) : zscoreAt xs i = 0 := by
  have hstd : popStd xs = 0 := (popStd_eq_zero_iff xs).2 (popVar_const xs t hne hall)
  have hget : xs.getD i 0 = t := hall _ (getD_mem_of_lt xs i 0 hi)
  rw [zscoreAt, if_pos hstd, hget, seriesMean_const xs t hne hall, sub_self, zero_div]

lemma group_nonempty (rs : List StdRecord) (i : ℕ) (hi : i < rs.length) :
    groupOf rs (countryAt rs i) ≠ [] := by
  intro h
  have := posIn_lt_group_length rs i hi
  rw [h] at this
  simp at this

lemma PF.eqb_iff (a b : PF) : PF.eqb a b = true ↔ a = b ∧ a.isNan = false := by
  cases a <;> cases b <;> simp [PF.eqb, PF.isNan]

lemma PF.ltb_not_eqb (a b : PF) (h : PF.ltb a b = true) : PF.eqb a b = false := by
  cases a <;> cases b <;> simp_all [PF.ltb, PF.eqb]
  exact ne_of_lt h

lemma PF.ltb_trans (a b c : PF) (h1 : PF.ltb a b = true) (h2 : PF.ltb b c = true) :
    PF.ltb a c = true := by
  cases a <;> cases b <;> cases c <;> simp_all [PF.ltb]
  exact lt_trans h1 h2

lemma fill0_not_nan (x : PF) : (x.fill0).isNan = false := by
  cases x <;> rfl

lemma co2Growth_not_nan (rs : List StdRecord) (i : ℕ) :
    (co2Growth rs i).isNan = false := fill0_not_nan _

lemma co2Growth_mem_all (rs : List StdRecord) (i : ℕ) (hi : i < rs.length) :
    co2Growth rs i ∈ allCo2Growth rs := by
  rw [allCo2Growth]
  exact List.mem_map.2 ⟨i, List.mem_range.2 hi, rfl⟩

lemma countP_disjoint_add {α : Type} (l : List α) (p q : α → Bool)
    (hdis : ∀ a, p a = true → q a = false) :
    l.countP (fun a => p a || q a) = l.countP p + l.countP q := by
  induction l with
  | nil => simp
  | cons a t ih =>
    rw [List.countP_cons, List.countP_cons, List.countP_cons]
    by_cases hp : p a = true
    · have hq := hdis a hp
      simp [hp, hq, ih]
      omega
    · by_cases hq : q a = true <;>
        simp [Bool.eq_false_iff.2 hp, hp, hq, ih] <;> omega

lemma countLt_add_countEq_le (l : List PF) (v : PF) :
    l.countP (fun w => PF.ltb w v) + l.countP (fun w => PF.eqb w v) ≤ l.length := by
  induction l with
  | nil => simp
  | cons a t ih =>
    rw [List.countP_cons, List.countP_cons, List.length_cons]
    by_cases h : PF.ltb a v = true
    · simp [h, PF.ltb_not_eqb a v h]
      omega
    · simp [h]
      split <;> omega

lemma one_le_countEq (l : List PF) (v : PF) (hv : v ∈ l) (hnan : v.isNan = false) :
    1 ≤ l.countP (fun w => PF.eqb w v) :=
  List.countP_pos_iff.2 ⟨v, hv, (PF.eqb_iff v v).2 ⟨rfl, hnan⟩⟩

lemma rankPct_nonneg (l : List PF) (v : PF) : 0 ≤ rankPct l v := by
  rw [rankPct]
  positivity

lemma rankPct_le_one (l : List PF) (v : PF) (hv : v ∈ l) (hnan : v.isNan = false) :
    rankPct l v ≤ 1 := by
  have hlen : 0 < l.length := List.length_pos.2 (List.ne_nil_of_mem hv)
  have h1 : (1 : ℚ) ≤ (l.countP (fun w => PF.eqb w v) : ℚ) := by
    exact_mod_cast one_le_countEq l v hv hnan
  have h2 : (l.countP (fun w => PF.ltb w v) : ℚ)
      + (l.countP (fun w => PF.eqb w v) : ℚ) ≤ (l.length : ℚ) := by
    exact_mod_cast countLt_add_countEq_le l v
  rw [rankPct, div_le_one (by exact_mod_cast hlen)]
  linarith

lemma countLt_add_countEq_le_countLt (l : List PF) (x y : PF)
    (hxnan : x.isNan = false) (hlt : PF.ltb x y = true) :
    l.countP (fun w => PF.ltb w x) + l.countP (fun w => PF.eqb w x)
      ≤ l.countP (fun w => PF.ltb w y) := by
  rw [← countP_disjoint_add l _ _ (fun a => PF.ltb_not_eqb a x)]
  apply List.countP_mono_left
  intro a _ ha
  rcases Bool.or_eq_true_iff.1 ha with h | h
  · exact PF.ltb_trans a x y h hlt
  · have := ((PF.eqb_iff a x).1 h).1
    rw [this]
    exact hlt

lemma rankPct_mono (l : List PF) (x y : PF) (hx : x ∈ l)
    (hxnan : x.isNan = false) (hle : PF.leb x y = true) :
    rankPct l x ≤ rankPct l y := by
  rcases Bool.or_eq_true_iff.1 hle with hlt | heq
  · have hlen : (0 : ℚ) < (l.length : ℚ) := by
      exact_mod_cast List.length_pos.2 (List.ne_nil_of_mem hx)
    have h1 : (1 : ℚ) ≤ (l.countP (fun w => PF.eqb w x) : ℚ) := by
      exact_mod_cast one_le_countEq l x hx hxnan
    have hkey : (l.countP (fun w => PF.ltb w x) : ℚ)
        + (l.countP (fun w => PF.eqb w x) : ℚ)
        ≤ (l.countP (fun w => PF.ltb w y) : ℚ) := by
      exact_mod_cast countLt_add_countEq_le_countLt l x y hxnan hlt
    have hEqy : (0 : ℚ) ≤ (l.countP (fun w => PF.eqb w y) : ℚ) := by positivity
    rw [rankPct, rankPct, div_le_div_iff_of_pos_right hlen]
    linarith
  · have hxy := ((PF.eqb_iff x y).1 heq).1
    rw [hxy]

lemma pick_col_none_iff (cols options : List String) :
    pick_col cols options = none ↔ ∀ o ∈ options, o ∉ cols := by
  rw [pick_col, List.find?_eq_none]
  simp

lemma pick_col_some_iff (cols options : List String) (c : String) :
    pick_col cols options = some c ↔
      ∃ pre suf : List String, options = pre ++ c :: suf ∧ c ∈ cols ∧
        ∀ o ∈ pre, o ∉ cols := by
  induction options with
  | nil =>
    simp only [pick_col, List.find?_nil]
    constructor
    · intro h; exact absurd h (by simp)
    · rintro ⟨pre, suf, h, -, -⟩
      exact absurd h (by simp)
  | cons o t ih =>
    by_cases ho : o ∈ cols
    · rw [pick_col, show List.find? (fun x => cols.contains x) (o :: t) = some o from
        List.find?_cons_of_pos t (by simpa using ho)]
      constructor
      · intro h
        obtain rfl : o = c := by simpa using h
        exact ⟨[], t, rfl, ho, by simp⟩
      · rintro ⟨pre, suf, heq, hc, hpre⟩
        cases pre with
        | nil =>
          obtain rfl : o = c := by simpa using congrArg List.head? heq
          rfl
        | cons p ps =>
          obtain rfl : o = p := by simpa using congrArg List.head? heq
          exact absurd ho (hpre o (by simp))
    · rw [pick_col, show List.find? (fun x => cols.contains x) (o :: t)
          = List.find? (fun x => cols.contains x) t from
        List.find?_cons_of_neg t (by simpa using ho)]
      rw [← pick_col, ih]
      constructor
      · rintro ⟨pre, suf, rfl, hc, hpre⟩
        refine ⟨o :: pre, suf, rfl, hc, ?_⟩
        intro x hx
        rcases List.mem_cons.1 hx with rfl | hx
        · exact ho
        · exact hpre x hx
      · rintro ⟨pre, suf, heq, hc, hpre⟩
        cases pre with
        | nil =>
          obtain rfl : o = c := by simpa using congrArg List.head? heq
          exact absurd hc ho
        | cons p ps =>
          obtain rfl : o = p := by simpa using congrArg List.head? heq
          refine ⟨ps, suf, by simpa using heq, hc, ?_⟩
          intro x hx
          exact hpre x (List.mem_cons_of_mem _ hx)

lemma countryColOf_none_iff (cols : List String) :
    countryColOf cols = none ↔
      ¬("country" ∈ cols ∨ "rw_country_name" ∈ cols ∨ "country_name" ∈ cols) := by
  rw [countryColOf]
  by_cases h : "country" ∈ cols
  · simp [List.elem_iff.2 h, h]
  · rw [if_neg (by simpa using h)]
    rw [pick_col_none_iff]
    simp [h]

lemma isLowerAlnum_ne_underscore (c : Char) (h : isLowerAlnum c = true) : c ≠ '_' := by
  intro rfl_h
  rw [rfl_h] at h
  exact absurd h (by decide)

lemma collapseRuns_chars (l : List Char) (b : Bool) :
    ∀ c ∈ collapseRuns l b, isLowerAlnum c = true ∨ c = '_' := by
  induction l generalizing b with
  | nil => simp [collapseRuns]
  | cons a t ih =>
    intro c hc
    rw [collapseRuns] at hc
    by_cases ha : isLowerAlnum a = true
    · rw [if_pos ha] at hc
      rcases List.mem_cons.1 hc with rfl | hc
      · exact Or.inl ha
      · exact ih false c hc
    · rw [if_neg ha] at hc
      cases b with
      | true => exact ih true c (by simpa using hc)
      | false =>
        rcases List.mem_cons.1 (by simpa using hc) with rfl | hc'
        · exact Or.inr rfl
        · exact ih true c hc'

lemma stripUnderscores_subset (l : List Char) :
    ∀ c ∈ stripUnderscores l, c ∈ l := by
  intro c hc
  rw [stripUnderscores] at hc
  rw [List.mem_reverse] at hc
  have h1 := (List.dropWhile_suffix (fun x => x == '_')).sublist.subset hc
  rw [List.mem_reverse] at h1
  exact (List.dropWhile_suffix (fun x => x == '_')).sublist.subset h1

lemma head?_dropWhile_ne (l : List Char) (c : Char)
    (h : (l.dropWhile (· == '_')).head? = some c) : c ≠ '_' := by
  induction l with
  | nil => simp [List.dropWhile] at h
  | cons a t ih =>
    rw [List.dropWhile_cons] at h
    by_cases ha : (a == '_') = true
    · rw [if_pos ha] at h
      exact ih h
    · rw [if_neg ha] at h
      obtain rfl : a = c := by simpa using h
      simpa using ha

lemma getLast?_of_suffix {s t : List Char} (c : Char) (h : s.getLast? = some c)
    (hsuf : s <:+ t) : t.getLast? = some c := by
  obtain ⟨u, rfl⟩ := hsuf
  rw [List.getLast?_append_of_ne_nil]
  · exact h
  · intro hnil; rw [hnil] at h; simp at h

lemma stripUnderscores_head (l : List Char) (c : Char)
    (h : (stripUnderscores l).head? = some c) : c ≠ '_' := by
  rw [stripUnderscores, List.head?_reverse] at h
  have h2 : ((l.dropWhile (· == '_')).reverse).getLast? = some c :=
    getLast?_of_suffix c h (List.dropWhile_suffix _)
  rw [List.getLast?_reverse] at h2
  exact head?_dropWhile_ne l c h2

lemma stripUnderscores_getLast (l : List Char) (c : Char)
    (h : (stripUnderscores l).getLast? = some c) : c ≠ '_' := by
  rw [stripUnderscores, List.getLast?_reverse] at h
  exact head?_dropWhile_ne _ c h

lemma collapseRuns_chain (l : List Char) (b : Bool) :
    (collapseRuns l b).Chain' (fun a c => ¬(a = '_' ∧ c = '_')) ∧
      (b = true → ∀ c, (collapseRuns l b).head? = some c → c ≠ '_') := by
  induction l generalizing b with
  | nil => simp [collapseRuns]
  | cons a t ih =>
    rw [collapseRuns]
    by_cases ha : isLowerAlnum a = true
    · rw [if_pos ha]
      refine ⟨List.chain'_cons'.2 ⟨?_, (ih false).1⟩, ?_⟩
      · intro x hx
        rintro ⟨hau, -⟩
        exact isLowerAlnum_ne_underscore a ha hau
      · intro _ c hc
        obtain rfl : a = c := by simpa using hc
        exact isLowerAlnum_ne_underscore a ha
    · rw [if_neg ha]
      cases b with
      | true =>
        simp only [if_true]
        exact ⟨(ih true).1, fun _ => (ih true).2 rfl⟩
      | false =>
        simp only [Bool.false_eq_true, if_false]
        refine ⟨List.chain'_cons'.2 ⟨?_, (ih true).1⟩, ?_⟩
        · intro x hx
          rintro ⟨-, hxu⟩
          exact (ih true).2 rfl x hx hxu
        · intro hfalse
          exact absurd hfalse (by simp)

lemma stripUnderscores_contig (l : List Char) : stripUnderscores l <:+: l := by
  rw [stripUnderscores]
  have h0 : ((l.dropWhile (· == '_')).reverse.dropWhile (· == '_'))
      <:+ (l.dropWhile (· == '_')).reverse := List.dropWhile_suffix _
  have h1 := List.reverse_prefix.2 h0
  rw [List.reverse_reverse] at h1
  exact h1.isInfix.trans (List.dropWhile_suffix _).isInfix

lemma stripUnderscores_chain (l : List Char)
    (h : l.Chain' (fun a c => ¬(a = '_' ∧ c = '_'))) :
    (stripUnderscores l).Chain' (fun a c => ¬(a = '_' ∧ c = '_')) :=
  h.infix (stripUnderscores_contig l)

lemma colIdx_lt_length (header : List String) (name : String) (j : ℕ)
    (h : colIdx header name = some j) : j < header.length := by
  induction header generalizing j with
  | nil => simp [colIdx] at h
  | cons a t ih =>
    rw [colIdx] at h
    by_cases ha : a = name
    · rw [if_pos ha] at h
      obtain rfl : (0 : ℕ) = j := by simpa using h
      simp
    · rw [if_neg ha] at h
      rcases Option.map_eq_some'.1 h with ⟨j', hj', rfl⟩
      have := ih j' hj'
      simp only [List.length_cons]
      omega

lemma colIdx_get (header : List String) (name : String) (j : ℕ)
    (h : colIdx header name = some j) : header.getD j "" = name := by
  induction header generalizing j with
  | nil => simp [colIdx] at h
  | cons a t ih =>
    rw [colIdx] at h
    by_cases ha : a = name
    · rw [if_pos ha] at h
      obtain rfl : (0 : ℕ) = j := by simpa using h
      simpa using ha
    · rw [if_neg ha] at h
      rcases Option.map_eq_some'.1 h with ⟨j', hj', rfl⟩
      simpa using ih j' hj'

lemma colIdx_mem (header : List String) (name : String) (h : name ∈ header) :
    ∃ j, colIdx header name = some j := by
  induction header with
  | nil => simp at h
  | cons a t ih =>
    rw [colIdx]
    by_cases ha : a = name
    · exact ⟨0, by rw [if_pos ha]⟩
    · rcases List.mem_cons.1 h with rfl | hmem
      · exact absurd rfl ha
      · rcases ih hmem with ⟨j, hj⟩
        exact ⟨j + 1, by rw [if_neg ha, hj]; rfl⟩

lemma colIdx_append_sing_self (l : List String) (name : String) (h : name ∉ l) :
    colIdx (l ++ [name]) name = some l.length := by
  induction l with
  | nil => simp [colIdx]
  | cons a t ih =>
    have ha : a ≠ name := fun heq => h (heq ▸ List.mem_cons_self a t)
    rw [List.cons_append, colIdx, if_neg ha, ih (fun hm => h (List.mem_cons_of_mem a hm))]
    rfl

lemma colIdx_append_sing_ne (l : List String) (name other : String) (hne : other ≠ name) :
    colIdx (l ++ [name]) other = colIdx l other := by
  induction l with
  | nil =>
    have : name ≠ other := fun h => hne h.symm
    simp [colIdx, this]
  | cons a t ih =>
    rw [List.cons_append, colIdx, colIdx, ih]

lemma colIdx_ne_of_name_ne (header : List String) (name other : String) (j j' : ℕ)
    (hne : name ≠ other) (h1 : colIdx header name = some j)
    (h2 : colIdx header other = some j') : j ≠ j' := by
  intro hjj
  apply hne
  subst hjj
  rw [← colIdx_get header name j h1, ← colIdx_get header other j h2]

lemma setCol_eq_replace (f : Frame) (name : String) (vals : List Cell) (j : ℕ)
    (h : colIdx f.header name = some j) :
    setCol f name vals = ⟨f.header, (f.rows.zip vals).map (fun p => p.1.set j p.2)⟩ := by
  rw [setCol, h]

lemma setCol_eq_append (f : Frame) (name : String) (vals : List Cell)
    (h : colIdx f.header name = none) :
    setCol f name vals
      = ⟨f.header ++ [name], (f.rows.zip vals).map (fun p => p.1 ++ [p.2])⟩ := by
  rw [setCol, h]

lemma colIdx_none_iff (header : List String) (name : String) :
    colIdx header name = none ↔ name ∉ header := by
  constructor
  · intro h hm
    rcases colIdx_mem header name hm with ⟨j, hj⟩
    rw [h] at hj
    exact Option.noConfusion hj
  · intro hm
    cases h : colIdx header name with
    | none => rfl
    | some j =>
      have hj := colIdx_get header name j h
      have hlt := colIdx_lt_length header name j h
      exact absurd (hj ▸ getD_mem_of_lt header j "" hlt) hm

lemma mem_setCol_header (f : Frame) (name : String) (vals : List Cell) (m : String)
    (h : m ∈ f.header) : m ∈ (setCol f name vals).header := by
  cases hc : colIdx f.header name with
  | some j => rw [setCol_eq_replace f name vals j hc]; exact h
  | none => rw [setCol_eq_append f name vals hc]; exact List.mem_append_left _ h

lemma setCol_rows_length (f : Frame) (name : String) (vals : List Cell)
    (hv : vals.length = f.rows.length) :
    (setCol f name vals).rows.length = f.rows.length := by
  cases hc : colIdx f.header name with
  | some j =>
    rw [setCol_eq_replace f name vals j hc]
    simp [hv]
  | none =>
    rw [setCol_eq_append f name vals hc]
    simp [hv]

lemma setCol_tidy (f : Frame) (name : String) (vals : List Cell)
    (ht : f.Tidy) (hv : vals.length = f.rows.length) :
    (setCol f name vals).Tidy := by
  intro row hrow
  cases hc : colIdx f.header name with
  | some j =>
    rw [setCol_eq_replace f name vals j hc] at hrow ⊢
    rcases List.mem_map.1 hrow with ⟨p, hp, rfl⟩
    simpa using ht p.1 (List.of_mem_zip hp).1
  | none =>
    rw [setCol_eq_append f name vals hc] at hrow ⊢
    rcases List.mem_map.1 hrow with ⟨p, hp, rfl⟩
    simpa using ht p.1 (List.of_mem_zip hp).1

lemma zip_map_rows_getD {γ : Type} (g : List Cell × Cell → γ) (l1 : List (List Cell))
    (l2 : List Cell) (i : ℕ) (hi : i < l1.length) (hl : l2.length = l1.length) (d : γ) :
    ((l1.zip l2).map g).getD i d = g (l1.getD i [], l2.getD i Cell.na) := by
  have hz : i < (l1.zip l2).length := by
    rw [List.length_zip]
    omega
  have hm : i < ((l1.zip l2).map g).length := by
    rw [List.length_map]
    exact hz
  rw [List.getD_eq_getElem _ _ hm, List.getElem_map, List.getElem_zip,
    List.getD_eq_getElem _ _ hi, List.getD_eq_getElem _ _ (by omega)]

lemma cellAt_out_of_range (f : Frame) (i : ℕ) (name : String)
    (h : f.rows.length ≤ i) : cellAt f i name = Cell.na := by
  rw [cellAt]
  cases hc : colIdx f.header name with
  | none => rfl
  | some j =>
    have hrow : f.rows.getD i [] = [] := by
      simp [List.getD, List.getElem?_eq_none (by simpa using h)]
    rw [hrow]
    rfl

lemma cellAt_setCol_self (f : Frame) (name : String) (vals : List Cell)
    (ht : f.Tidy) (hv : vals.length = f.rows.length) (i : ℕ) (hi : i < f.rows.length) :
    cellAt (setCol f name vals) i name = vals.getD i Cell.na := by
  have hrow : (f.rows.getD i []).length = f.header.length :=
    ht _ (getD_mem_of_lt f.rows i [] hi)
  cases hc : colIdx f.header name with
  | some j =>
    rw [setCol_eq_replace f name vals j hc, cellAt]
    simp only [hc]
    rw [zip_map_rows_getD _ f.rows vals i hi hv]
    have hj : j < (f.rows.getD i []).length := by
      rw [hrow]
      exact colIdx_lt_length f.header name j hc
    rw [List.getD_eq_getElem _ _ (by simpa using hj), List.getElem_set_self]
  | none =>
    rw [setCol_eq_append f name vals hc, cellAt]
    simp only [colIdx_append_sing_self f.header name ((colIdx_none_iff _ _).1 hc)]
    rw [zip_map_rows_getD _ f.rows vals i hi hv, ← hrow]
    exact getD_append_cons _ [] _ _

lemma cellAt_setCol_ne (f : Frame) (name other : String) (vals : List Cell)
    (ht : f.Tidy) (hv : vals.length = f.rows.length) (hne : other ≠ name) (i : ℕ) :
    cellAt (setCol f name vals) i other = cellAt f i other := by
  by_cases hi : i < f.rows.length
  · have hrow : (f.rows.getD i []).length = f.header.length :=
      ht _ (getD_mem_of_lt f.rows i [] hi)
    cases hc : colIdx f.header name with
    | some j =>
      rw [setCol_eq_replace f name vals j hc, cellAt, cellAt]
      cases ho : colIdx f.header other with
      | none => rfl
      | some j' =>
        simp only [ho]
        rw [zip_map_rows_getD _ f.rows vals i hi hv]
        have hjj : j ≠ j' :=
          colIdx_ne_of_name_ne f.header name other j j' (fun h => hne h.symm) hc ho
        simp [List.getD, List.getElem?_set_ne hjj]
    | none =>
      rw [setCol_eq_append f name vals hc, cellAt, cellAt,
        colIdx_append_sing_ne f.header name other hne]
      cases ho : colIdx f.header other with
      | none => rfl
      | some j' =>
        simp only [ho]
        rw [zip_map_rows_getD _ f.rows vals i hi hv]
        have hj' : j' < (f.rows.getD i []).length := by
          rw [hrow]
          exact colIdx_lt_length f.header other j' ho
        rw [List.getD_append _ _ _ _ hj']
  · have hlen : (setCol f name vals).rows.length = f.rows.length :=
      setCol_rows_length f name vals hv
    rw [cellAt_out_of_range f i other (by omega),
      cellAt_out_of_range _ i other (by omega)]

lemma colValues_length (f : Frame) (name : String) (j : ℕ)
    (hc : colIdx f.header name = some j) :
    (colValues f name).length = f.rows.length := by
  rw [colValues, hc, List.length_map]

lemma colValues_getD (f : Frame) (name : String) (i : ℕ) (hi : i < f.rows.length)
    (j : ℕ) (hc : colIdx f.header name = some j) :
    (colValues f name).getD i Cell.na = cellAt f i name := by
  rw [colValues, cellAt]
  simp only [hc]
  have hm : i < (f.rows.map (fun row => row.getD j Cell.na)).length := by
    simpa using hi
  rw [List.getD_eq_getElem _ _ hm, List.getElem_map, ← List.getD_eq_getElem _ [] hi]

lemma mapIdx_getD {α β : Type} (l : List α) (g : ℕ → α → β) (i : ℕ) (hi : i < l.length)
    (d : β) (da : α) :
    (l.mapIdx g).getD i d = g i (l.getD i da) := by
  have hm : i < (l.mapIdx g).length := by simpa using hi
  rw [List.getD_eq_getElem _ _ hm, List.getElem_mapIdx, List.getD_eq_getElem _ _ hi]

lemma perturbStep_rows_length (f : Frame) (src : Option String) (tgt : String)
    (s : ℕ → ℚ) (hsrc : ∀ c, src = some c → c ∈ f.header) :
    (perturbStep f src tgt s).rows.length = f.rows.length := by
  cases hs : src with
  | none => rfl
  | some c =>
    rcases colIdx_mem f.header c (hsrc c hs) with ⟨j, hj⟩
    rw [perturbStep]
    apply setCol_rows_length
    rw [List.length_mapIdx, colValues_length f c j hj]

lemma perturbStep_tidy (f : Frame) (src : Option String) (tgt : String)
    (s : ℕ → ℚ) (ht : f.Tidy) (hsrc : ∀ c, src = some c → c ∈ f.header) :
    (perturbStep f src tgt s).Tidy := by
  cases hs : src with
  | none => exact ht
  | some c =>
    rcases colIdx_mem f.header c (hsrc c hs) with ⟨j, hj⟩
    rw [perturbStep]
    apply setCol_tidy _ _ _ ht
    rw [List.length_mapIdx, colValues_length f c j hj]

lemma perturbStep_mem_header (f : Frame) (src : Option String) (tgt : String)
    (s : ℕ → ℚ) (m : String) (h : m ∈ f.header) :
    m ∈ (perturbStep f src tgt s).header := by
  cases src with
  | none => exact h
  | some c => exact mem_setCol_header _ _ _ _ h

lemma perturbStep_cellAt_ne (f : Frame) (src : Option String) (tgt other : String)
    (s : ℕ → ℚ) (ht : f.Tidy) (hsrc : ∀ c, src = some c → c ∈ f.header)
    (hne : other ≠ tgt) (i : ℕ) :
    cellAt (perturbStep f src tgt s) i other = cellAt f i other := by
  cases hs : src with
  | none => rfl
  | some c =>
    rcases colIdx_mem f.header c (hsrc c hs) with ⟨j, hj⟩
    rw [perturbStep]
    apply cellAt_setCol_ne _ _ _ _ ht _ hne
    rw [List.length_mapIdx, colValues_length f c j hj]

lemma perturbStep_cellAt_tgt (f : Frame) (c : String) (tgt : String) (s : ℕ → ℚ)
    (ht : f.Tidy) (hc : c ∈ f.header) (i : ℕ) (hi : i < f.rows.length) :
    cellAt (perturbStep f (some c) tgt s) i tgt = (cellAt f i c).scale (1 + s i) := by
  rcases colIdx_mem f.header c hc with ⟨j, hj⟩
  have hlen : ((colValues f c).mapIdx (fun m cell => cell.scale (1 + s m))).length
      = f.rows.length := by
    rw [List.length_mapIdx, colValues_length f c j hj]
  rw [perturbStep, cellAt_setCol_self f tgt _ ht hlen i hi,
    mapIdx_getD _ _ i (by rw [colValues_length f c j hj]; exact hi) Cell.na Cell.na,
    colValues_getD f c i hi j hj]

lemma setCol_header_congr (f g : Frame) (h : f.header = g.header)
    (name : String) (vals vals' : List Cell) :
    (setCol f name vals).header = (setCol g name vals').header := by
  cases hc : colIdx f.header name with
  | some j =>
    rw [setCol_eq_replace f name vals j hc,
      setCol_eq_replace g name vals' j (h ▸ hc)]
    exact h
  | none =>
    rw [setCol_eq_append f name vals hc,
      setCol_eq_append g name vals' (h ▸ hc)]
    rw [h]

lemma perturbStep_header_congr (f g : Frame) (h : f.header = g.header)
    (src : Option String) (tgt : String) (s s' : ℕ → ℚ) :
    (perturbStep f src tgt s).header = (perturbStep g src tgt s').header := by
  cases src with
  | none => exact h
  | some c => exact setCol_header_congr f g h _ _ _

lemma expandYear_header_eq (f : Frame) (crio lco gco : Option String)
    (y y' : ℕ) (s1 s2 s3 t1 t2 t3 : ℕ → ℚ) :
    (expandYear f crio lco gco y s1 s2 s3).header
      = (expandYear f crio lco gco y' t1 t2 t3).header := by
  rw [expandYear, expandYear]
  apply perturbStep_header_congr
  apply perturbStep_header_congr
  apply perturbStep_header_congr
  apply setCol_header_congr
  rfl

lemma expandYear_facts (f : Frame) (crio lco gco : Option String) (y : ℕ)
    (s1 s2 s3 : ℕ → ℚ) (ht : f.Tidy)
    (hcrio : ∀ c, crio = some c → c ∈ f.header ∧ c ≠ "year")
    (hlco : ∀ c, lco = some c → c ∈ f.header ∧ c ≠ "year" ∧ c ≠ "cri_score")
    (hgco : ∀ c, gco = some c → c ∈ f.header ∧ c ≠ "year" ∧ c ≠ "cri_score"
        ∧ c ≠ "losses_usdm_ppp_total") :
    (expandYear f crio lco gco y s1 s2 s3).rows.length = f.rows.length ∧
    (∀ i, i < f.rows.length →
        cellAt (expandYear f crio lco gco y s1 s2 s3) i "year" = Cell.num (y : ℚ)) ∧
    (∀ c, crio = some c → ∀ i, i < f.rows.length →
        cellAt (expandYear f crio lco gco y s1 s2 s3) i "cri_score"
          = (cellAt f i c).scale (1 + s1 i)) ∧
    (∀ c, lco = some c → ∀ i, i < f.rows.length →
        cellAt (expandYear f crio lco gco y s1 s2 s3) i "losses_usdm_ppp_total"
          = (cellAt f i c).scale (1 + s2 i)) ∧
    (∀ c, gco = some c → ∀ i, i < f.rows.length →
        cellAt (expandYear f crio lco gco y s1 s2 s3) i "fatalities_total"
          = (cellAt f i c).scale (1 + s3 i)) := by
  simp only [expandYear]
  set t1 := setCol f "year" (List.replicate f.rows.length (Cell.num (y : ℚ))) with ht1def
  have ht1tidy : t1.Tidy := setCol_tidy f _ _ ht (by simp)
  have ht1len : t1.rows.length = f.rows.length := setCol_rows_length f _ _ (by simp)
  have ht1mem : ∀ c, c ∈ f.header → c ∈ t1.header :=
    fun c hc => mem_setCol_header f _ _ c hc
  have ht1year : ∀ i, i < f.rows.length → cellAt t1 i "year" = Cell.num (y : ℚ) := by
    intro i hi
    rw [ht1def, cellAt_setCol_self f _ _ ht (by simp) i hi,
      List.getD_eq_getElem _ _ (by simpa using hi), List.getElem_replicate]
  have ht1other : ∀ other, other ≠ "year" → ∀ i, cellAt t1 i other = cellAt f i other :=
    fun other hne i => cellAt_setCol_ne f _ other _ ht (by simp) hne i
  set t2 := perturbStep t1 crio "cri_score" s1 with ht2def
  have hsrc2 : ∀ c, crio = some c → c ∈ t1.header :=
    fun c hc => ht1mem c (hcrio c hc).1
  have ht2tidy : t2.Tidy := perturbStep_tidy t1 crio _ s1 ht1tidy hsrc2
  have ht2len : t2.rows.length = f.rows.length := by
    rw [ht2def, perturbStep_rows_length t1 crio _ s1 hsrc2, ht1len]
  have ht2mem : ∀ c, c ∈ f.header → c ∈ t2.header :=
    fun c hc => perturbStep_mem_header t1 crio _ s1 c (ht1mem c hc)
  have ht2other : ∀ other, other ≠ "cri_score" → ∀ i,
      cellAt t2 i other = cellAt t1 i other :=
    fun other hne i => perturbStep_cellAt_ne t1 crio _ other s1 ht1tidy hsrc2 hne i
  have ht2cri : ∀ c, crio = some c → ∀ i, i < f.rows.length →
      cellAt t2 i "cri_score" = (cellAt f i c).scale (1 + s1 i) := by
    intro c hc i hi
    rw [ht2def, hc, perturbStep_cellAt_tgt t1 c _ s1 ht1tidy (hsrc2 c hc) i
      (by rw [ht1len]; exact hi), ht1other c (hcrio c hc).2 i]
  set t3 := perturbStep t2 lco "losses_usdm_ppp_total" s2 with ht3def
  have hsrc3 : ∀ c, lco = some c → c ∈ t2.header :=
    fun c hc => ht2mem c (hlco c hc).1
  have ht3tidy : t3.Tidy := perturbStep_tidy t2 lco _ s2 ht2tidy hsrc3
  have ht3len : t3.rows.length = f.rows.length := by
    rw [ht3def, perturbStep_rows_length t2 lco _ s2 hsrc3, ht2len]
  have ht3mem : ∀ c, c ∈ f.header → c ∈ t3.header :=
    fun c hc => perturbStep_mem_header t2 lco _ s2 c (ht2mem c hc)
  have ht3other : ∀ other, other ≠ "losses_usdm_ppp_total" → ∀ i,
      cellAt t3 i other = cellAt t2 i other :=
    fun other hne i => perturbStep_cellAt_ne t2 lco _ other s2 ht2tidy hsrc3 hne i
  have ht3losses : ∀ c, lco = some c → ∀ i, i < f.rows.length →
      cellAt t3 i "losses_usdm_ppp_total" = (cellAt f i c).scale (1 + s2 i) := by
    intro c hc i hi
    rw [ht3def, hc, perturbStep_cellAt_tgt t2 c _ s2 ht2tidy (hsrc3 c hc) i
      (by rw [ht2len]; exact hi), ht2other c (hlco c hc).2.2 i,
      ht1other c (hlco c hc).2.1 i]
  set t4 := perturbStep t3 gco "fatalities_total" s3 with ht4def
  have hsrc4 : ∀ c, gco = some c → c ∈ t3.header :=
    fun c hc => ht3mem c (hgco c hc).1
  have ht4len : t4.rows.length = f.rows.length := by
    rw [ht4def, perturbStep_rows_length t3 gco _ s3 hsrc4, ht3len]
  have ht4other : ∀ other, other ≠ "fatalities_total" → ∀ i,
      cellAt t4 i other = cellAt t3 i other :=
    fun other hne i => perturbStep_cellAt_ne t3 gco _ other s3 ht3tidy hsrc4 hne i
  have ht4fatal : ∀ c, gco = some c → ∀ i, i < f.rows.length →
      cellAt t4 i "fatalities_total" = (cellAt f i c).scale (1 + s3 i) := by
    intro c hc i hi
    rw [ht4def, hc, perturbStep_cellAt_tgt t3 c _ s3 ht3tidy (hsrc4 c hc) i
      (by rw [ht3len]; exact hi), ht3other c (hgco c hc).2.2.2 i,
      ht2other c (hgco c hc).2.2.1 i, ht1other c (hgco c hc).2.1 i]
  refine ⟨ht4len, ?_, ?_, ?_, ht4fatal⟩
  · intro i hi
    rw [ht4other "year" (by decide) i, ht3other "year" (by decide) i,
      ht2other "year" (by decide) i]
    exact ht1year i hi
  · intro c hc i hi
    rw [ht4other "cri_score" (by decide) i, ht3other "cri_score" (by decide) i]
    exact ht2cri c hc i hi
  · intro c hc i hi
    rw [ht4other "losses_usdm_ppp_total" (by decide) i]
    exact ht3losses c hc i hi

lemma flatten_getD_blocks {α : Type} (blocks : List (List α)) (n : ℕ)
    (hlen : ∀ b ∈ blocks, b.length = n) (k i : ℕ) (hk : k < blocks.length)
    (hi : i < n) (d : α) :
    blocks.flatten.getD (k * n + i) d = (blocks.getD k []).getD i d := by
  induction blocks generalizing k with
  | nil => simp at hk
  | cons b t ih =>
    have hb : b.length = n := hlen b (List.mem_cons_self b t)
    cases k with
    | zero =>
      rw [List.flatten_cons]
      simp only [Nat.zero_mul, Nat.zero_add]
      rw [List.getD_append _ _ _ _ (by omega)]
      rfl
    | succ k' =>
      rw [List.flatten_cons,
        List.getD_append_right _ _ _ _ (by rw [hb, Nat.succ_mul]; omega)]
      have hidx : (k' + 1) * n + i - b.length = k' * n + i := by
        rw [hb, Nat.succ_mul]; omega
      rw [hidx]
      exact ih (fun b' hb' => hlen b' (List.mem_cons_of_mem _ hb')) k' (by simpa using hk)

lemma simulate_rows (f : Frame) (crio lco gco : Option String)
    (r1 r2 r3 : ℕ → ℕ → ℚ) :
    (simulate f crio lco gco r1 r2 r3).rows
      = ((List.range 25).map (fun k =>
          (expandYear f crio lco gco (2000 + k)
            (r1 (2000 + k)) (r2 (2000 + k)) (r3 (2000 + k))).rows)).flatten := rfl

lemma simulate_header (f : Frame) (crio lco gco : Option String)
    (r1 r2 r3 : ℕ → ℕ → ℚ) (k : ℕ) :
    (simulate f crio lco gco r1 r2 r3).header
      = (expandYear f crio lco gco (2000 + k)
          (r1 (2000 + k)) (r2 (2000 + k)) (r3 (2000 + k))).header := by
  show (expandYear f crio lco gco 2000 (r1 2000) (r2 2000) (r3 2000)).header = _
  exact expandYear_header_eq f crio lco gco 2000 (2000 + k) _ _ _ _ _ _

lemma standardize_getD_head (f : Frame) (ccol : String) (crio lco gco : Option String)
    (c : String) (y : ℚ) (hn : 0 < f.rows.length)
    (hc : (cellAt f 0 ccol).toKey = some c)
    (hy : (cellAt f 0 "year").toNum = some y) :
    (standardize f ccol crio lco gco).getD 0 dummyStd
      = ⟨c, y,
          (match crio with
            | some cc => (cellAt f 0 cc).toNum
            | none => some (numericRowSum f (f.rows.getD 0 []))).getD 0,
          (match lco with
            | some cc => (cellAt f 0 cc).toNum
            | none => some 0).getD 0,
          (match gco with
            | some cc => (cellAt f 0 cc).toNum
            | none => some 0).getD 0⟩ := by
  obtain ⟨n, hn'⟩ : ∃ n, f.rows.length = n + 1 := ⟨f.rows.length - 1, by omega⟩
  rw [standardize, hn', List.range_succ_eq_map, List.filterMap_cons]
  simp only [hc, hy]
  rfl

end Lemmas

/-- C1: for every row of the feature-engineered output, `risk_score` equals
exactly `0.5 * temp_anomaly_z + 0.3 * co2_growth_norm + 0.2 * sea_level_z`,
computed from that row's three input fields, with no further term. -/
theorem risk_score_formula (rs : List StdRecord) (i : ℕ) :
    riskScore rs i =
      0.5 * tempAnomalyZ rs i + 0.3 * (co2GrowthNorm rs i : ℝ)
        + 0.2 * seaLevelZ rs i := rfl

/-- C4: in the z-score computation a zero within-group standard deviation is
replaced by the divisor 1.0, so the score is the centered value; in
particular a country with identical `temperature_anomaly` across all its
rows gets `temp_anomaly_z = 0.0` on every one of its rows. -/
theorem zscore_zero_std_fallback :
    (∀ (xs : List ℚ) (i : ℕ), popStd xs = 0 →
        zscoreAt xs i = ((xs.getD i 0 : ℚ) : ℝ) - ((seriesMean xs : ℚ) : ℝ)) ∧
    (∀ (rs : List StdRecord) (i : ℕ), i < rs.length →
        (∀ r ∈ groupOf rs (countryAt rs i),
          r.temperature_anomaly = (rs.getD i dummyStd).temperature_anomaly) →
        tempAnomalyZ rs i = 0) := by
  constructor
  · intro xs i h
    rw [zscoreAt, if_pos h, div_one]
  · intro rs i hi hconst
    rw [tempAnomalyZ]
    apply zscoreAt_of_const _ ((rs.getD i dummyStd).temperature_anomaly)
    · simpa using group_nonempty rs i hi
    · intro x hx
      rcases List.mem_map.1 hx with ⟨r, hr, rfl⟩
      exact hconst r hr
    · rw [List.length_map]; exact posIn_lt_group_length rs i hi

/-- Witness for C4: a two-row country with constant `temperature_anomaly = 3`
gets `temp_anomaly_z = 0.0` at row 0. -/
theorem zscore_zero_std_fallback_witness :
    tempAnomalyZ [⟨"A", 2000, 3, 5, 1⟩, ⟨"A", 2001, 3, 6, 2⟩] 0 = 0 :=
  zscore_zero_std_fallback.2 _ 0 (by decide) (by decide)

/-- C6: within each country's series, `co2_growth` is the period-over-period
percent change of `co2_emission` (first period filled with 0.0): the first
row of each group has `co2_growth = 0.0`, and a later row with a nonzero
previous value has `(cur - prev) / prev`. -/
theorem co2_growth_is_pct_change (rs : List StdRecord) (i : ℕ) (hi : i < rs.length) :
    (posIn rs i = 0 → co2Growth rs i = PF.num 0) ∧
    (∀ p : ℕ, posIn rs i = p + 1 →
      ∀ prev : ℚ,
        ((groupOf rs (countryAt rs i)).map (·.co2_emission)).getD p 0 = prev →
        prev ≠ 0 →
        co2Growth rs i
          = PF.num (((rs.getD i dummyStd).co2_emission - prev) / prev)) := by
  constructor
  · intro h0
    rw [co2Growth, h0, co2GrowthAt, pctChangeAt, if_pos rfl, PF.fill0]
  · intro p hp prev hprev hne
    have hcur : ((groupOf rs (countryAt rs i)).map (·.co2_emission)).getD (p + 1) 0
        = (rs.getD i dummyStd).co2_emission := by
      rw [← hp]; exact group_map_getD rs i hi _
    rw [co2Growth, co2GrowthAt, pctChangeAt, hp,
      if_neg (Nat.succ_ne_zero p), Nat.add_sub_cancel, hprev, hcur,
      PF.divq, if_neg hne]
    simp only [PF.subOne, PF.fill0]
    congr 1
    field_simp

/-- Witness for C6: country with emissions `[4, 6]`; the first row's growth
is 0.0 and the second row's growth is `(6 - 4) / 4 = 1/2`. -/
theorem co2_growth_is_pct_change_witness :
    co2Growth [⟨"A", 2000, 0, 4, 0⟩, ⟨"A", 2001, 0, 6, 0⟩] 0 = PF.num 0 ∧
    co2Growth [⟨"A", 2000, 0, 4, 0⟩, ⟨"A", 2001, 0, 6, 0⟩] 1 = PF.num (1/2) := by
  constructor
  · exact (co2_growth_is_pct_change _ 0 (by decide)).1 (by decide)
  · have h := (co2_growth_is_pct_change
      [⟨"A", 2000, 0, 4, 0⟩, ⟨"A", 2001, 0, 6, 0⟩] 1 (by decide)).2
      0 (by decide) 4 (by decide) (by norm_num)
    rw [h]
    norm_num

/-- C5: the pipeline fails with the `SchemaError` naming the available
(cleaned, sorted) columns exactly when no country alias (`country`,
`rw_country_name`, `country_name`) is present; for optional fields,
`pick_col` yields "not found" exactly when no alias is present, and a
`some` answer is the first alias of the priority list found among the
columns. -/
theorem schema_error_and_alias_resolution :
    (∀ cols : List String,
      resolveCountry cols = Except.error (sortStrings cols) ↔
        ¬("country" ∈ cols ∨ "rw_country_name" ∈ cols ∨ "country_name" ∈ cols)) ∧
    (∀ cols options : List String,
      pick_col cols options = none ↔ ∀ o ∈ options, o ∉ cols) ∧
    (∀ (cols options : List String) (c : String),
      pick_col cols options = some c ↔
        ∃ pre suf : List String, options = pre ++ c :: suf ∧ c ∈ cols ∧
          ∀ o ∈ pre, o ∉ cols) := by
  refine ⟨?_, pick_col_none_iff, pick_col_some_iff⟩
  intro cols
  rcases hcc : countryColOf cols with - | c
  · rw [resolveCountry, hcc]
    constructor
    · intro _
      exact (countryColOf_none_iff cols).1 hcc
    · intro _
      rfl
  · rw [resolveCountry, hcc]
    constructor
    · intro h
      exact Except.noConfusion h
    · intro hno
      have hnone := (countryColOf_none_iff cols).2 hno
      rw [hcc] at hnone
      exact Option.noConfusion hnone

/-- Witness for C5: a header set with no country alias errors with the
sorted column list, and `pick_col` selects the first present alias. -/
theorem schema_error_and_alias_resolution_witness :
    resolveCountry ["year", "notes"] = Except.error (sortStrings ["year", "notes"]) ∧
    pick_col ["country_name", "cri"] criOptions = some "cri" := by
  constructor
  · exact (schema_error_and_alias_resolution.1 ["year", "notes"]).2 (by decide)
  · exact (schema_error_and_alias_resolution.2.2 ["country_name", "cri"] criOptions "cri").2
      ⟨["cri_score", "climate_risk_index"], [], rfl, by decide, by decide⟩

/-- C8: every normalized header consists of lowercase alphanumerics and
single (non-adjacent) underscores, with no underscore at either end; and
the three example headers normalize as the spec lists, after which alias
resolution selects `country_name` for the country field. -/
theorem normalize_cols_contract :
    (∀ s : String, ∀ c ∈ (normalizeName s).data, isLowerAlnum c = true ∨ c = '_') ∧
    (∀ (s : String) (c : Char),
      ((normalizeName s).data.head? = some c → c ≠ '_') ∧
      ((normalizeName s).data.getLast? = some c → c ≠ '_')) ∧
    (∀ s : String,
      (normalizeName s).data.Chain' (fun a c => ¬(a = '_' ∧ c = '_'))) ∧
    normalize_cols ["Country Name", "CRI Score", "Losses (USD,PPP) Total"]
      = ["country_name", "cri_score", "losses_usd_ppp_total"] ∧
    countryColOf (normalize_cols ["Country Name", "CRI Score", "Losses (USD,PPP) Total"])
      = some "country_name" := by
  refine ⟨?_, ?_, ?_, by decide, by decide⟩
  · intro s c hc
    exact collapseRuns_chars _ false c (stripUnderscores_subset _ c hc)
  · intro s c
    exact ⟨stripUnderscores_head _ c, stripUnderscores_getLast _ c⟩
  · intro s
    exact stripUnderscores_chain _ (collapseRuns_chain _ false).1

/-- Witness for C8: the head of the first normalized example header and the
last character of the second are not underscores. -/
theorem normalize_cols_contract_witness :
    ('c' : Char) ≠ '_' ∧ ('e' : Char) ≠ '_' :=
  ⟨(normalize_cols_contract.2.1 "Country Name" 'c').1 (by decide),
   (normalize_cols_contract.2.1 "CRI Score" 'e').2 (by decide)⟩

/-- Counterexample to C2: on a source with no mapped risk-index column
(`pick_col` returns none), the first output row's `temperature_anomaly` is
2000 — the row-wise sum of the numeric columns, which includes the
synthetic `year` — not 0.0. -/
theorem temperature_anomaly_default_not_zero :
    pick_col (normalize_cols noCriFrame.header) criOptions = none ∧
    (noCriOut.getD 0 dummyStd).temperature_anomaly = 2000 ∧
    ¬(noCriOut.getD 0 dummyStd).temperature_anomaly = 0 := by
  have hrun : runPipeline noCriFrame zeroR zeroR zeroR
      = Except.ok (standardize noCriSim "country_name" none none none) := rfl
  have hout : noCriOut = standardize noCriSim "country_name" none none none := by
    rw [noCriOut, hrun]
    rfl
  have h0 : 0 < noCriSim.rows.length := by decide
  have hc : (cellAt noCriSim 0 "country_name").toKey = some "Atlantis" := by decide
  have hy : (cellAt noCriSim 0 "year").toNum = some 2000 := by decide
  have hfilter : (List.range noCriSim.header.length).filter (numericColB noCriSim)
      = [2] := by decide
  have hcell2 : (noCriSim.rows.getD 0 []).getD 2 Cell.na = Cell.num 2000 := by decide
  have hsum : numericRowSum noCriSim (noCriSim.rows.getD 0 []) = 2000 := by
    rw [numericRowSum, hfilter]
    simp only [List.map_cons, List.map_nil, hcell2]
    simp
  have hhead : (standardize noCriSim "country_name" none none none).getD 0 dummyStd
      = ⟨"Atlantis", 2000, numericRowSum noCriSim (noCriSim.rows.getD 0 []), 0, 0⟩ := by
    rw [standardize_getD_head noCriSim "country_name" none none none "Atlantis" 2000
      h0 hc hy]
    rfl
  have htemp : (noCriOut.getD 0 dummyStd).temperature_anomaly = 2000 := by
    rw [hout, hhead]
    exact hsum
  refine ⟨by decide, htemp, ?_⟩
  rw [htemp]
  norm_num

/-- C2 amended: when the losses-like and fatalities-like aliases are
unmapped, `co2_emission` and `sea_level_change` default to 0.0 on every
output row; but when the risk-index alias is unmapped,
`temperature_anomaly` is instead the row-wise sum of the frame's numeric
columns (which includes the synthetic `year` column). -/
theorem standardize_unmapped_defaults (f : Frame) (ccol : String)
    (crio : Option String) :
    ∀ r ∈ standardize f ccol crio none none,
      r.co2_emission = 0 ∧ r.sea_level_change = 0 ∧
      (crio = none →
        ∃ i, i < f.rows.length ∧
          r.temperature_anomaly = numericRowSum f (f.rows.getD i [])) := by
  intro r hr
  rw [standardize] at hr
  rcases List.mem_filterMap.1 hr with ⟨i, hmem, hsome⟩
  have hi : i < f.rows.length := List.mem_range.1 hmem
  cases hk : (cellAt f i ccol).toKey with
  | none =>
    rw [hk] at hsome
    simp at hsome
  | some c =>
    cases hy : (cellAt f i "year").toNum with
    | none =>
      rw [hk, hy] at hsome
      simp at hsome
    | some y =>
      rw [hk, hy] at hsome
      simp only [Option.some.injEq] at hsome
      subst hsome
      refine ⟨rfl, rfl, ?_⟩
      intro hcrio
      subst hcrio
      exact ⟨i, hi, rfl⟩

/-- Witness for the amended C2: the single output record of `c2wFrame` has
`co2_emission = 0` and `sea_level_change = 0`. -/
theorem standardize_unmapped_defaults_witness :
    (StdRecord.mk "A" 2024 7 0 0).co2_emission = 0 ∧
      (StdRecord.mk "A" 2024 7 0 0).sea_level_change = 0 ∧
      (some "cri_score" = none →
        ∃ i, i < c2wFrame.rows.length ∧
          (StdRecord.mk "A" 2024 7 0 0).temperature_anomaly
            = numericRowSum c2wFrame (c2wFrame.rows.getD i [])) :=
  standardize_unmapped_defaults c2wFrame "country" (some "cri_score")
    (StdRecord.mk "A" 2024 7 0 0) (by decide)

/-- C7: every `co2_growth_norm` value lies in `[0, 1]`, and the rank is
monotone: a row whose `co2_growth` is `≤` another row's has a
`co2_growth_norm` that is `≤` the other row's. -/
theorem co2_growth_norm_range_and_monotone (rs : List StdRecord) (i j : ℕ)
    (hi : i < rs.length) (hj : j < rs.length) :
    0 ≤ co2GrowthNorm rs i ∧ co2GrowthNorm rs i ≤ 1 ∧
      (PF.leb (co2Growth rs i) (co2Growth rs j) = true →
        co2GrowthNorm rs i ≤ co2GrowthNorm rs j) := by
  refine ⟨rankPct_nonneg _ _,
    rankPct_le_one _ _ (co2Growth_mem_all rs i hi) (co2Growth_not_nan rs i), ?_⟩
  intro hle
  exact rankPct_mono _ _ _ (co2Growth_mem_all rs i hi) (co2Growth_not_nan rs i) hle

/-- Witness for C7 at the concrete two-row input. -/
theorem co2_growth_norm_range_and_monotone_witness :
    0 ≤ co2GrowthNorm c3rs 0 ∧ co2GrowthNorm c3rs 0 ≤ 1 ∧
      (PF.leb (co2Growth c3rs 0) (co2Growth c3rs 1) = true →
        co2GrowthNorm c3rs 0 ≤ co2GrowthNorm c3rs 1) :=
  co2_growth_norm_range_and_monotone c3rs 0 1 (by decide) (by decide)

/-- Counterexample to C3: on the two-row input with tied `co2_growth`
values (both 0.0), `rank(pct=True)` yields 3/4 for each row, while the
fraction of values `≤ 0.0` is 1; so `co2_growth_norm` is not the fraction
of values that are `≤` the row's value. -/
theorem co2_growth_norm_not_frac_le :
    co2GrowthNorm c3rs 0 = 3 / 4 ∧
      fracLe (allCo2Growth c3rs) (co2Growth c3rs 0) = 1 ∧
      co2GrowthNorm c3rs 0 ≠ fracLe (allCo2Growth c3rs) (co2Growth c3rs 0) := by
  have h1 : (allCo2Growth c3rs).countP (fun w => PF.ltb w (co2Growth c3rs 0)) = 0 := by
    decide
  have h2 : (allCo2Growth c3rs).countP (fun w => PF.eqb w (co2Growth c3rs 0)) = 2 := by
    decide
  have h3 : (allCo2Growth c3rs).countP (fun w => PF.leb w (co2Growth c3rs 0)) = 2 := by
    decide
  have h4 : (allCo2Growth c3rs).length = 2 := by decide
  have hrank : co2GrowthNorm c3rs 0 = 3 / 4 := by
    rw [co2GrowthNorm, rankPct, h1, h2, h4]
    norm_num
  have hfrac : fracLe (allCo2Growth c3rs) (co2Growth c3rs 0) = 1 := by
    rw [fracLe, h3, h4]
    norm_num
  refine ⟨hrank, hfrac, ?_⟩
  rw [hrank, hfrac]
  norm_num

/-- C3 amended: `co2_growth_norm` is the average-method percentile rank,
`(#(strictly less) + (#(equal) + 1) / 2) / n`, over the whole dataset; it
coincides with the fraction of values `≤` the row's value exactly when the
row's value is untied. -/
theorem co2_growth_norm_average_rank (rs : List StdRecord) (i : ℕ) :
    co2GrowthNorm rs i =
      (((allCo2Growth rs).countP (fun w => PF.ltb w (co2Growth rs i)) : ℚ)
          + (((allCo2Growth rs).countP (fun w => PF.eqb w (co2Growth rs i)) : ℚ) + 1) / 2)
        / ((allCo2Growth rs).length : ℚ) ∧
    ((allCo2Growth rs).countP (fun w => PF.eqb w (co2Growth rs i)) = 1 →
      co2GrowthNorm rs i = fracLe (allCo2Growth rs) (co2Growth rs i)) := by
  constructor
  · rfl
  · intro h1
    have hsplit : (allCo2Growth rs).countP (fun w => PF.leb w (co2Growth rs i))
        = (allCo2Growth rs).countP (fun w => PF.ltb w (co2Growth rs i))
          + (allCo2Growth rs).countP (fun w => PF.eqb w (co2Growth rs i)) := by
      rw [← countP_disjoint_add _ _ _ (fun a => PF.ltb_not_eqb a (co2Growth rs i))]
      rfl
    rw [co2GrowthNorm, rankPct, fracLe, hsplit, h1]
    norm_num

lemma untied_growth1 : co2Growth untiedRs 1 = PF.num 1 := by
  have hxs : ((groupOf untiedRs (countryAt untiedRs 1)).map (·.co2_emission)) = [2, 4] := by
    decide
  have hpos : posIn untiedRs 1 = 1 := by decide
  rw [co2Growth, hxs, hpos, co2GrowthAt, pctChangeAt]
  norm_num [PF.divq, PF.subOne, PF.fill0]

/-- Witness for the amended C3: at an untied value the rank equals the
fraction of values `≤` it. -/
theorem co2_growth_norm_average_rank_witness :
    co2GrowthNorm untiedRs 1 = fracLe (allCo2Growth untiedRs) (co2Growth untiedRs 1) := by
  apply (co2_growth_norm_average_rank untiedRs 1).2
  have hall : allCo2Growth untiedRs = [co2Growth untiedRs 0, co2Growth untiedRs 1] := rfl
  have hg0 : co2Growth untiedRs 0 = PF.num 0 := by decide
  rw [hall, hg0, untied_growth1]
  decide

/-- C9: synthetic year expansion yields exactly one output row per input
row per year of 2000–2024, 25 years, so the expanded row count is
`25 * n`; the copy of input row `i` for year `2000+k` sits at position
`k*n+i` and carries that year; and each mapped source field is perturbed
per row per year by an independent factor `1 + d` with `d` drawn from
`[-0.3, 0.3)`, `[-0.25, 0.25)`, `[-0.3, 0.3)` respectively. -/
theorem simulate_25_years_and_perturbation (f : Frame) (r1 r2 r3 : ℕ → ℕ → ℚ)
    (ht : f.Tidy)
    (hr1 : ∀ y i, -0.3 ≤ r1 y i ∧ r1 y i < 0.3)
    (hr2 : ∀ y i, -0.25 ≤ r2 y i ∧ r2 y i < 0.25)
    (hr3 : ∀ y i, -0.3 ≤ r3 y i ∧ r3 y i < 0.3)
    (crio lco gco : Option String)
    (hcrioEq : crio = pick_col f.header criOptions)
    (hlcoEq : lco = pick_col f.header lossesOptions)
    (hgcoEq : gco = pick_col f.header fatalOptions) :
    (simulate f crio lco gco r1 r2 r3).rows.length = 25 * f.rows.length ∧
    (∀ k i, k < 25 → i < f.rows.length →
      cellAt (simulate f crio lco gco r1 r2 r3) (k * f.rows.length + i) "year"
        = Cell.num ((2000 + k : ℕ) : ℚ)) ∧
    (∀ c, crio = some c → ∀ k i, k < 25 → i < f.rows.length →
      ∃ d : ℚ, -0.3 ≤ d ∧ d < 0.3 ∧
        cellAt (simulate f crio lco gco r1 r2 r3) (k * f.rows.length + i) "cri_score"
          = (cellAt f i c).scale (1 + d)) ∧
    (∀ c, lco = some c → ∀ k i, k < 25 → i < f.rows.length →
      ∃ d : ℚ, -0.25 ≤ d ∧ d < 0.25 ∧
        cellAt (simulate f crio lco gco r1 r2 r3) (k * f.rows.length + i)
            "losses_usdm_ppp_total"
          = (cellAt f i c).scale (1 + d)) ∧
    (∀ c, gco = some c → ∀ k i, k < 25 → i < f.rows.length →
      ∃ d : ℚ, -0.3 ≤ d ∧ d < 0.3 ∧
        cellAt (simulate f crio lco gco r1 r2 r3) (k * f.rows.length + i)
            "fatalities_total"
          = (cellAt f i c).scale (1 + d)) := by
  have hpickmem : ∀ (opts : List String) (c : String),
      pick_col f.header opts = some c → c ∈ f.header ∧ c ∈ opts := by
    intro opts c hc
    rw [pick_col] at hc
    constructor
    · have := List.find?_some hc
      simpa using this
    · exact List.mem_of_find?_eq_some hc
  have hcrio : ∀ c, crio = some c → c ∈ f.header ∧ c ≠ "year" := by
    intro c hc
    rw [hcrioEq] at hc
    obtain ⟨h1, h2⟩ := hpickmem _ c hc
    have h3 : c = "cri_score" ∨ c = "climate_risk_index" ∨ c = "cri" := by
      simpa [criOptions] using h2
    rcases h3 with rfl | rfl | rfl <;> exact ⟨h1, by decide⟩
  have hlco : ∀ c, lco = some c → c ∈ f.header ∧ c ≠ "year" ∧ c ≠ "cri_score" := by
    intro c hc
    rw [hlcoEq] at hc
    obtain ⟨h1, h2⟩ := hpickmem _ c hc
    have h3 : c = "losses_usdm_ppp_total" ∨ c = "losses_per_gdp_total" := by
      simpa [lossesOptions] using h2
    rcases h3 with rfl | rfl <;> exact ⟨h1, by decide, by decide⟩
  have hgco : ∀ c, gco = some c → c ∈ f.header ∧ c ≠ "year" ∧ c ≠ "cri_score"
      ∧ c ≠ "losses_usdm_ppp_total" := by
    intro c hc
    rw [hgcoEq] at hc
    obtain ⟨h1, h2⟩ := hpickmem _ c hc
    have h3 : c = "fatalities_total" ∨ c = "fatalities_per_100k_total" := by
      simpa [fatalOptions] using h2
    rcases h3 with rfl | rfl <;> exact ⟨h1, by decide, by decide, by decide⟩
  have hEY := fun (k : ℕ) => expandYear_facts f crio lco gco (2000 + k)
    (r1 (2000 + k)) (r2 (2000 + k)) (r3 (2000 + k)) ht hcrio hlco hgco
  have hblocks : ∀ b ∈ (List.range 25).map (fun k =>
      (expandYear f crio lco gco (2000 + k) (r1 (2000 + k)) (r2 (2000 + k))
        (r3 (2000 + k))).rows), b.length = f.rows.length := by
    intro b hb
    rcases List.mem_map.1 hb with ⟨k, -, rfl⟩
    exact (hEY k).1
  have hcell : ∀ k i, k < 25 → i < f.rows.length → ∀ name,
      cellAt (simulate f crio lco gco r1 r2 r3) (k * f.rows.length + i) name
        = cellAt (expandYear f crio lco gco (2000 + k) (r1 (2000 + k))
            (r2 (2000 + k)) (r3 (2000 + k))) i name := by
    intro k i hk hi name
    rw [cellAt, cellAt, simulate_header f crio lco gco r1 r2 r3 k]
    cases hcx : colIdx (expandYear f crio lco gco (2000 + k) (r1 (2000 + k))
        (r2 (2000 + k)) (r3 (2000 + k))).header name with
    | none => rfl
    | some j =>
      simp only [hcx]
      have hrows : (simulate f crio lco gco r1 r2 r3).rows.getD
          (k * f.rows.length + i) []
          = (expandYear f crio lco gco (2000 + k) (r1 (2000 + k)) (r2 (2000 + k))
              (r3 (2000 + k))).rows.getD i [] := by
        have hblockk : ((List.range 25).map (fun k =>
            (expandYear f crio lco gco (2000 + k) (r1 (2000 + k)) (r2 (2000 + k))
              (r3 (2000 + k))).rows)).getD k []
            = (expandYear f crio lco gco (2000 + k) (r1 (2000 + k)) (r2 (2000 + k))
                (r3 (2000 + k))).rows := by
          have hk' : k < ((List.range 25).map (fun k =>
              (expandYear f crio lco gco (2000 + k) (r1 (2000 + k)) (r2 (2000 + k))
                (r3 (2000 + k))).rows)).length := by
            simpa using hk
          rw [List.getD_eq_getElem _ _ hk', List.getElem_map, List.getElem_range]
        rw [simulate_rows,
          flatten_getD_blocks _ f.rows.length hblocks k i (by simpa using hk) hi,
          hblockk]
      rw [hrows]
  refine ⟨?_, ?_, ?_, ?_, ?_⟩
  · rw [simulate_rows, List.length_flatten, List.map_map]
    have hmem : ∀ x ∈ (List.range 25).map (List.length ∘ fun k =>
        (expandYear f crio lco gco (2000 + k) (r1 (2000 + k)) (r2 (2000 + k))
          (r3 (2000 + k))).rows), x = f.rows.length := by
      intro x hx
      rcases List.mem_map.1 hx with ⟨k, -, rfl⟩
      exact (hEY k).1
    have hmap := List.eq_replicate_of_mem hmem
    rw [List.length_map, List.length_range] at hmap
    rw [hmap, List.sum_replicate, smul_eq_mul]
  · intro k i hk hi
    rw [hcell k i hk hi "year"]
    exact (hEY k).2.1 i hi
  · intro c hc k i hk hi
    refine ⟨r1 (2000 + k) i, (hr1 _ _).1, (hr1 _ _).2, ?_⟩
    rw [hcell k i hk hi "cri_score"]
    exact (hEY k).2.2.1 c hc i hi
  · intro c hc k i hk hi
    refine ⟨r2 (2000 + k) i, (hr2 _ _).1, (hr2 _ _).2, ?_⟩
    rw [hcell k i hk hi "losses_usdm_ppp_total"]
    exact (hEY k).2.2.2.1 c hc i hi
  · intro c hc k i hk hi
    refine ⟨r3 (2000 + k) i, (hr3 _ _).1, (hr3 _ _).2, ?_⟩
    rw [hcell k i hk hi "fatalities_total"]
    exact (hEY k).2.2.2.2 c hc i hi

/-- Witness for C9: on the one-row frame, the expansion yields `25 * 1`
rows. -/
theorem simulate_25_years_and_perturbation_witness :
    (simulate c9f (pick_col c9f.header criOptions) (pick_col c9f.header lossesOptions)
        (pick_col c9f.header fatalOptions) c9r c9r c9r).rows.length
      = 25 * c9f.rows.length :=
  (simulate_25_years_and_perturbation c9f c9r c9r c9r
    (by intro row hrow
        have : row = [Cell.txt "A", Cell.num 10] := by
          simpa [c9f] using hrow
        subst this
        decide)
    (fun y i => by norm_num [c9r]) (fun y i => by norm_num [c9r])
    (fun y i => by norm_num [c9r])
    _ _ _ rfl rfl rfl).1

/-- Counterexample to C10's consequence: on emissions `[0.0, 1.0]` the
second row's `co2_growth` is `+inf`, but its `risk_score` equals `3/10` —
a finite number — because only the percentile rank of `co2_growth` (here
1.0) enters the risk score, not `co2_growth` itself. -/
theorem co2_growth_inf_risk_score_finite :
    co2Growth c10rs 1 = PF.pinf ∧ riskScore c10rs 1 = 3 / 10 := by
  constructor
  · decide
  · have htz : tempAnomalyZ c10rs 1 = 0 := by
      rw [tempAnomalyZ]
      apply zscoreAt_of_const _ 3
      · decide
      · decide
      · decide
    have hsz : seaLevelZ c10rs 1 = 0 := by
      rw [seaLevelZ]
      apply zscoreAt_of_const _ 7
      · decide
      · decide
      · decide
    have h1 : (allCo2Growth c10rs).countP (fun w => PF.ltb w (co2Growth c10rs 1)) = 1 := by
      decide
    have h2 : (allCo2Growth c10rs).countP (fun w => PF.eqb w (co2Growth c10rs 1)) = 1 := by
      decide
    have h4 : (allCo2Growth c10rs).length = 2 := by decide
    have hnorm : co2GrowthNorm c10rs 1 = 1 := by
      rw [co2GrowthNorm, rankPct, h1, h2, h4]
      norm_num
    rw [riskScore, htz, hsz, hnorm]
    norm_num

/-- C10 amended: the `pct_change` division has no zero guard and `fillna`
replaces only NaN, so a row whose previous-period emission is 0.0 and whose
own emission is positive gets `co2_growth = +inf` (while its `risk_score`
stays finite, as only the rank of `co2_growth` enters it). -/
theorem co2_growth_div_by_zero_inf (rs : List StdRecord) (i : ℕ)
    (hi : i < rs.length) (p : ℕ) (hp : posIn rs i = p + 1)
    (hprev : ((groupOf rs (countryAt rs i)).map (·.co2_emission)).getD p 0 = 0)
    (hcur : 0 < (rs.getD i dummyStd).co2_emission) :
    co2Growth rs i = PF.pinf := by
  have hcur' : ((groupOf rs (countryAt rs i)).map (·.co2_emission)).getD (p + 1) 0
      = (rs.getD i dummyStd).co2_emission := by
    rw [← hp]; exact group_map_getD rs i hi _
  rw [co2Growth, co2GrowthAt, pctChangeAt, hp,
    if_neg (Nat.succ_ne_zero p), Nat.add_sub_cancel, hprev, hcur',
    PF.divq, if_pos rfl, if_neg (ne_of_gt hcur), if_pos hcur]
  rfl

/-- Witness for the amended C10 at a fresh concrete input. -/
theorem co2_growth_div_by_zero_inf_witness :
    co2Growth [⟨"B", 2000, 0, 0, 0⟩, ⟨"B", 2001, 0, 2, 0⟩] 1 = PF.pinf :=
  co2_growth_div_by_zero_inf _ 1 (by decide) 0 (by decide) (by decide) (by norm_num)

end ClimateETL
